import Mathlib

/-!
Verification development for the Go backend of GoComicMosaic: a shallow
embedding of `internal/utils/avif_utils.go` and `internal/config/config.go`.

Modelling conventions:
- Go's `(T, error)` return pairs become `T × Option String` (the error message)
  or `Except String T` for single results.
- Go `nil` slices and empty slices are both modelled as `[]`.
- The concurrent worker pool of `ConvertMultipleImagesToAvif` and
  `BatchProcessImagesToAvif` is modelled by a sequential linearization in job
  submission order: each submitted job is consumed exactly once by exactly one
  worker, and only order of the collected outcomes is nondeterministic in the
  Go code, so count/set-level properties are faithfully captured.
- Filesystem access (`os.ReadDir`, `filepath.Walk`) is modelled by passing the
  observed directory contents / walk event sequence as an explicit argument.
- `float64` arithmetic in `calculateTargetSize` is modelled as exact rational
  arithmetic (`ℚ`); Go's `int(x)` conversion truncates toward zero, which for
  the nonnegative values arising from positive inputs equals the floor.
-/

namespace GoBackend

/-- Embedding of `utils.ConvertToAvif` (avif_utils.go lines 24-27): the codec is
temporarily disabled, so the function unconditionally returns the fixed error
message and never produces an output path. -/
def ConvertToAvif (_imgPath : String) (_useAvifExt : Bool) (_quality : Int) :
    Except String String :=
  .error "AVIF支持暂时不可用，请稍后再试"

/-- The single-item converter `ConvertMultipleImagesToAvif` actually invokes,
with the batch-level parameters applied (avif_utils.go line 84). -/
def avifConv (useAvifExt : Bool) (quality : Int) : String → Except String String :=
  fun imgPath => ConvertToAvif imgPath useAvifExt quality

/-- The failure message a worker formats for one failed job
(avif_utils.go line 86): `fmt.Errorf("处理 %s 失败: %w", imgPath, err)`. -/
def failureMessage (imgPath : String) (errMsg : String) : String :=
  "处理 " ++ imgPath ++ " 失败: " ++ errMsg

/-- Embedding of the worker-pool loop of `ConvertMultipleImagesToAvif`
(avif_utils.go lines 78-117): every submitted path is consumed by exactly one
worker, which sends either the output path to `results` or a formatted failure
to `errs`. Returns the drained `(successResults, combinedErr)` pair, in a
sequential linearization of submission order. Generic in the single-item
converter `conv` so the orchestrator's properties are independent of the
codec's availability; the Go code uses `conv := avifConv useAvifExt quality`. -/
def runJobs (conv : String → Except String String) :
    List String → List String × List String
  | [] => ([], [])
  | imgPath :: rest =>
    let tail := runJobs conv rest
    match conv imgPath with
    | .ok outputPath => (outputPath :: tail.1, tail.2)
    | .error e => (tail.1, failureMessage imgPath e :: tail.2)

/-- Embedding of the concurrency normalization shared by
`ConvertMultipleImagesToAvif` (avif_utils.go lines 67-69) and
`BatchProcessImagesToAvif` (lines 269-271): a non-positive value is replaced by
the default 4. -/
def normalizeConcurrency (concurrency : Int) : Int :=
  if concurrency ≤ 0 then 4 else concurrency

/-- Embedding of the body of `ConvertMultipleImagesToAvif` after JSON decoding
(avif_utils.go lines 62-124): an empty decoded list short-circuits to
`([], none)`; otherwise the worker pool (of `normalizeConcurrency concurrency`
workers) runs every job, and the drained failure messages, if any, are joined
with `"; "` into a single combined error alongside the partial success list. -/
def convertMultipleCore (conv : String → Except String String)
    (imgPaths : List String) (concurrency : Int) : List String × Option String :=
  if imgPaths = [] then ([], none)
  else
    let _workers := normalizeConcurrency concurrency
    let outcome := runJobs conv imgPaths
    if outcome.2 = [] then (outcome.1, none)
    else (outcome.1, some (String.intercalate "; " outcome.2))

/-- Embedding of the serialized-list entry check of `ConvertMultipleImagesToAvif`
(avif_utils.go lines 55-64). The JSON deserialization itself is Go standard
library code (`json.Unmarshal` into `[]string`), external to this repository;
its outcome is passed in as `parsed : Except String (List String)` (the decoded
path list, or the unmarshal error message). A decode error fails fast with the
wrapped message `"解析JSON失败: " ++ e` and a nil success list, before any
worker starts. -/
def convertSerializedCore (conv : String → Except String String)
    (parsed : Except String (List String)) (concurrency : Int) :
    List String × Option String :=
  match parsed with
  | .error e => ([], some ("解析JSON失败: " ++ e))
  | .ok imgPaths => convertMultipleCore conv imgPaths concurrency

/-- Embedding of `utils.ConvertMultipleImagesToAvif` (avif_utils.go lines
55-125), with the JSON decode outcome of the `jsonList` payload passed as
`parsed` and the disabled codec `ConvertToAvif` as the single-item converter.
`keepOriginal` is accepted but unused, exactly as in the Go source. -/
def ConvertMultipleImagesToAvif (parsed : Except String (List String))
    (_keepOriginal useAvifExt : Bool) (concurrency _quality : Int) :
    List String × Option String :=
  convertSerializedCore (avifConv useAvifExt _quality) parsed concurrency

/-- Embedding of Go's `filepath.Ext` scan (stdlib behavior the source relies
on), phrased on the reversed character list of the path: walking from the end
of the path, the extension is everything from (and including) the last `'.'`,
provided no path separator `'/'` intervenes; otherwise it is empty. A final
element that is nothing but a dot plus a token (a hidden file such as `.png`)
therefore yields the whole element as the extension, exactly as in Go. -/
def extTakeRev : List Char → List Char
  | [] => []
  | c :: rest =>
    if c = '/' then []
    else if c = '.' then [c]
    else
      match extTakeRev rest with
      | [] => []
      | e => c :: e

/-- Go's `filepath.Ext path`: the suffix of the final path element beginning at
its last dot, or `""` when that element has no dot. -/
def filepathExt (path : String) : String :=
  ⟨(extTakeRev path.data.reverse).reverse⟩

/-- Model of Go's `strings.ToLower` restricted to the ASCII range (sufficient
for the extension comparisons in this file): each character is lowered with
`Char.toLower`. -/
def strToLower (s : String) : String :=
  ⟨s.data.map Char.toLower⟩

/-- Embedding of the extension allow-list switch shared by
`ProcessDirectoryToAvifSync` (avif_utils.go lines 151-164) and
`BatchProcessImagesToAvif` (lines 223-227): the lower-cased `filepath.Ext` of
the path must be one of `.jpg`, `.jpeg`, `.png`, `.webp`. -/
def isSupportedImage (path : String) : Bool :=
  let ext := strToLower (filepathExt path)
  ext = ".jpg" || ext = ".jpeg" || ext = ".png" || ext = ".webp"

/-- Embedding of `utils.getImageType` (avif_utils.go lines 348-355): the
lower-cased `filepath.Ext`, with a leading `"."` (one byte, hence one leading
character) stripped when present. -/
def getImageType (path : String) : String :=
  let ext := strToLower (filepathExt path)
  if ext.data.head? = some '.' then ⟨ext.data.tail⟩ else ext

/-- Model of `filepath.Join(dirPath, name)` for a non-empty `dirPath` with no
trailing separator and a clean `name`, as used by the non-recursive directory
listings (avif_utils.go lines 183 and 247). -/
def joinPath (dirPath name : String) : String :=
  dirPath ++ "/" ++ name

/-- One entry of an `os.ReadDir` listing, as consumed by the non-recursive
branches (avif_utils.go lines 178-192 and 242-256): its name and whether it is
a directory. The other `fileInfo` fields are fabricated constants in the Go
code and never read by the walk callbacks. -/
structure DirEntry where
  name : String
  isDir : Bool
deriving DecidableEq, Repr

/-- One callback invocation of a `filepath.Walk` traversal (avif_utils.go lines
169 and 234): either a visited entry (path plus directory flag, with a nil
error) or an error event carrying the walk error for that path. -/
inductive WalkEvent where
  | entry (path : String) (isDir : Bool)
  | fail (path : String) (msg : String)
deriving DecidableEq, Repr

/-- Discriminator for walk events: `true` on a visited entry, `false` on an
error event. Used to state that a prefix of a traversal is error-free. -/
def isEntryEvent : WalkEvent → Bool
  | .entry _ _ => true
  | .fail _ _ => false

/-- Embedding of the per-file body of the `walkFunc` of
`ProcessDirectoryToAvifSync` (avif_utils.go lines 150-164): returns `true`
exactly when the counter is incremented, i.e. when the extension is supported
and the single-item conversion succeeds; unsupported files and failed
conversions are skipped (failure is logged, not propagated). -/
def syncFileCounts (conv : String → Except String String) (path : String) : Bool :=
  if isSupportedImage path then
    match conv path with
    | .ok _ => true
    | .error _ => false
  else false

/-- Embedding of the recursive branch of `ProcessDirectoryToAvifSync`
(avif_utils.go lines 168-170): `filepath.Walk` feeds the events to `walkFunc`
in order; a non-nil error is returned by `walkFunc` as-is, aborting the walk,
and the function returns the count accumulated so far together with that
error; directories are skipped; files update the count per `syncFileCounts`. -/
def walkSync (conv : String → Except String String) :
    List WalkEvent → Nat → Nat × Option String
  | [], count => (count, none)
  | WalkEvent.fail _ msg :: _, count => (count, some msg)
  | WalkEvent.entry path isDir :: rest, count =>
    if isDir then walkSync conv rest count
    else walkSync conv rest (count + (if syncFileCounts conv path then 1 else 0))

/-- Embedding of the non-recursive branch of `ProcessDirectoryToAvifSync`
(avif_utils.go lines 172-193): the `os.ReadDir` listing of `dirPath` is given
as `files`; directory entries are skipped and each file entry is run through
the same `walkFunc` body with a nil error. No error is ever returned once the
listing succeeded. -/
def syncListDir (conv : String → Except String String) (dirPath : String)
    (files : List DirEntry) : Nat :=
  files.foldl
    (fun count f =>
      if f.isDir then count
      else count + (if syncFileCounts conv (joinPath dirPath f.name) then 1 else 0))
    0

/-- Embedding of `utils.ProcessDirectoryToAvifSync` (avif_utils.go lines
137-195), generic in the single-item converter. The filesystem is supplied
explicitly: `events` is the `filepath.Walk` callback sequence used in recursive
mode, `listing` the `os.ReadDir` outcome used in non-recursive mode (where a
read error returns `(0, err)`). -/
def processDirSyncCore (conv : String → Except String String)
    (dirPath : String) (recursive : Bool) (events : List WalkEvent)
    (listing : Except String (List DirEntry)) : Nat × Option String :=
  if recursive then walkSync conv events 0
  else
    match listing with
    | .error e => (0, some e)
    | .ok files => (syncListDir conv dirPath files, none)

/-- Embedding of `utils.ProcessDirectoryToAvifSync` with the converter the Go
source hardwires: the disabled codec `ConvertToAvif` (avif_utils.go line 155).
`keepOriginal` is accepted but unused, exactly as in the Go source. -/
def ProcessDirectoryToAvifSync (dirPath : String) (recursive : Bool)
    (_keepOriginal useAvifExt : Bool) (quality : Int) (events : List WalkEvent)
    (listing : Except String (List DirEntry)) : Nat × Option String :=
  processDirSyncCore (avifConv useAvifExt quality) dirPath recursive events listing

/-- Embedding of the image-collection walk of `BatchProcessImagesToAvif`
(avif_utils.go lines 212-229 with the recursive traversal of lines 233-234): a
walk error aborts the traversal and is returned; otherwise all non-directory
paths with a supported extension are collected in visit order. -/
def collectWalk : List WalkEvent → List String → Except String (List String)
  | [], acc => .ok acc
  | WalkEvent.fail _ msg :: _, _ => .error msg
  | WalkEvent.entry path isDir :: rest, acc =>
    if isDir then collectWalk rest acc
    else if isSupportedImage path then collectWalk rest (acc ++ [path])
    else collectWalk rest acc

/-- Embedding of the non-recursive image collection of
`BatchProcessImagesToAvif` (avif_utils.go lines 236-256): directory entries
are skipped, file entries are joined onto `dirPath` and kept when their
extension is supported. -/
def collectListDir (dirPath : String) (files : List DirEntry) : List String :=
  files.foldl
    (fun acc f =>
      if f.isDir then acc
      else
        if isSupportedImage (joinPath dirPath f.name) then
          acc ++ [joinPath dirPath f.name]
        else acc)
    []

/-- Embedding of the counting worker pool of `BatchProcessImagesToAvif`
(avif_utils.go lines 264-306): each collected path is consumed by exactly one
worker; the shared counter is incremented under the mutex on every successful
conversion, failures are logged and ignored. Sequential linearization in
submission order. -/
def countSuccesses (conv : String → Except String String) (imgPaths : List String) : Nat :=
  imgPaths.foldl
    (fun count imgPath =>
      match conv imgPath with
      | .ok _ => count + 1
      | .error _ => count)
    0

/-- Embedding of `utils.BatchProcessImagesToAvif` (avif_utils.go lines
208-307), generic in the single-item converter: any enumeration error (walk
error in recursive mode, `os.ReadDir` error otherwise) returns `(0, err)`
before any worker starts; otherwise the pool of `normalizeConcurrency
concurrency` workers counts the successful conversions and no error is
returned. -/
def batchProcessCore (conv : String → Except String String)
    (dirPath : String) (recursive : Bool) (concurrency : Int)
    (events : List WalkEvent) (listing : Except String (List DirEntry)) :
    Nat × Option String :=
  let collected : Except String (List String) :=
    if recursive then collectWalk events []
    else
      match listing with
      | .error e => .error e
      | .ok files => .ok (collectListDir dirPath files)
  match collected with
  | .error e => (0, some e)
  | .ok imgPaths =>
    let _workers := normalizeConcurrency concurrency
    (countSuccesses conv imgPaths, none)

/-- Embedding of `utils.BatchProcessImagesToAvif` with the converter the Go
source hardwires: the disabled codec `ConvertToAvif` (avif_utils.go line 283). -/
def BatchProcessImagesToAvif (dirPath : String) (recursive : Bool)
    (_keepOriginal useAvifExt : Bool) (concurrency quality : Int)
    (events : List WalkEvent) (listing : Except String (List DirEntry)) :
    Nat × Option String :=
  batchProcessCore (avifConv useAvifExt quality) dirPath recursive concurrency events listing

/-- Embedding of `utils.calculateTargetSize` (avif_utils.go lines 310-345),
with `float64` arithmetic modelled as exact rational arithmetic and Go's
truncating `int(...)` conversion modelled as the floor (they agree on the
nonnegative values arising from positive inputs). -/
def calculateTargetSize (originalWidth originalHeight maxWidth maxHeight : Int) :
    Int × Int :=
  let bounds : Int × Int :=
    if maxWidth ≤ 0 ∨ maxHeight ≤ 0 then
      if originalWidth > originalHeight then (1280, 720) else (600, 900)
    else (maxWidth, maxHeight)
  let widthRatio : ℚ := (bounds.1 : ℚ) / (originalWidth : ℚ)
  let heightRatio : ℚ := (bounds.2 : ℚ) / (originalHeight : ℚ)
  let scaleRatio := if heightRatio < widthRatio then heightRatio else widthRatio
  let scaleRatio := if scaleRatio > 1 then 1 else scaleRatio
  (⌊(originalWidth : ℚ) * scaleRatio⌋, ⌊(originalHeight : ℚ) * scaleRatio⌋)

/-- Modelled from the spec: the SizeCalculator algorithm as §4.1 describes it
in words — substitute orientation-dependent default bounds when a bound is
non-positive, take the smaller of the two axis ratios, clamp it to at most 1,
and floor `original * scaleFactor` on each axis. Stated independently of the
source function so the two can be compared. -/
def sizeCalculatorSpec (originalWidth originalHeight maxWidth maxHeight : Int) :
    Int × Int :=
  let bounds : Int × Int :=
    if maxWidth ≤ 0 ∨ maxHeight ≤ 0 then
      if originalWidth > originalHeight then (1280, 720) else (600, 900)
    else (maxWidth, maxHeight)
  let widthRatio : ℚ := (bounds.1 : ℚ) / (originalWidth : ℚ)
  let heightRatio : ℚ := (bounds.2 : ℚ) / (originalHeight : ℚ)
  let scaleFactor := min (min widthRatio heightRatio) 1
  (⌊(originalWidth : ℚ) * scaleFactor⌋, ⌊(originalHeight : ℚ) * scaleFactor⌋)

/-- Embedding of `config.SetImageFormat` (config.go lines 111-119). The
package-level mutable variable `ImageFormat` is passed as the explicit state
`imageFormat`; the result is the returned `bool` paired with the new value of
the variable: `"webp"` and `"avif"` are stored and accepted, anything else is
rejected with the state unchanged. -/
def SetImageFormat (format : String) (imageFormat : String) : Bool × String :=
  if format = "webp" || format = "avif" then (true, format)
  else (false, imageFormat)

end GoBackend

namespace GoBackend

theorem runJobs_length (conv : String → Except String String) :
    ∀ paths : List String,
      (runJobs conv paths).1.length + (runJobs conv paths).2.length = paths.length := by
  intro paths
  induction paths with
  | nil => simp [runJobs]
  | cons p rest ih =>
    cases h : conv p with
    | ok o => simp [runJobs, h]; omega
    | error e => simp [runJobs, h]; omega

theorem convertMultipleCore_fst (conv : String → Except String String)
    (paths : List String) (c : Int) :
    (convertMultipleCore conv paths c).1 = (runJobs conv paths).1 := by
  by_cases h : paths = []
  · subst h; simp [convertMultipleCore, runJobs]
  · by_cases h2 : (runJobs conv paths).2 = [] <;>
      simp [convertMultipleCore, h, h2]

theorem runJobs_allFail (uA : Bool) (q : Int) (paths : List String) :
    runJobs (avifConv uA q) paths
      = ([], paths.map (fun p => failureMessage p "AVIF支持暂时不可用，请稍后再试")) := by
  induction paths with
  | nil => rfl
  | cons p rest ih => simp [runJobs, avifConv, ConvertToAvif, ih]

theorem runJobs_failure_mem (conv : String → Except String String) :
    ∀ paths : List String, ∀ msg ∈ (runJobs conv paths).2,
      ∃ p ∈ paths, ∃ suffix, msg = "处理 " ++ (p ++ suffix) := by
  intro paths
  induction paths with
  | nil => intro msg h; simp [runJobs] at h
  | cons p rest ih =>
    intro msg hmsg
    cases hc : conv p with
    | ok o =>
      simp only [runJobs, hc] at hmsg
      obtain ⟨p', hp', hsuf⟩ := ih msg hmsg
      exact ⟨p', List.mem_cons_of_mem _ hp', hsuf⟩
    | error e =>
      simp only [runJobs, hc, List.mem_cons] at hmsg
      rcases hmsg with h | h
      · refine ⟨p, List.mem_cons_self _ _, " 失败: " ++ e, ?_⟩
        rw [h]
        simp [failureMessage, String.ext_iff, String.data_append]
      · obtain ⟨p', hp', hsuf⟩ := ih msg h
        exact ⟨p', List.mem_cons_of_mem _ hp', hsuf⟩

/-- C1: every path submitted to the explicit-list batch conversion produces
exactly one outcome — the number of returned success paths plus the number of
failure messages folded into the combined error equals the number of submitted
paths — for every single-item converter and every concurrency parameter (whose
normalization never changes the set of outcomes), and in particular for
`ConvertMultipleImagesToAvif` with its disabled codec. -/
theorem convertMultiple_outcome_conservation
    (conv : String → Except String String) (paths : List String)
    (c c' q : Int) (kO uA : Bool) :
    (convertMultipleCore conv paths c).1.length + (runJobs conv paths).2.length
        = paths.length
    ∧ convertMultipleCore conv paths c = convertMultipleCore conv paths c'
    ∧ (ConvertMultipleImagesToAvif (.ok paths) kO uA c q).1.length
        + (runJobs (avifConv uA q) paths).2.length = paths.length := by
  refine ⟨?_, rfl, ?_⟩
  · rw [convertMultipleCore_fst]; exact runJobs_length conv paths
  · show (convertMultipleCore (avifConv uA q) paths c).1.length + _ = _
    rw [convertMultipleCore_fst]; exact runJobs_length (avifConv uA q) paths

/-- C3: whenever at least one item of an explicit-list batch fails, the
function returns the partial success list together with a single combined
error joining every per-item failure message with `"; "`; each failure message
contains the failing input path; with no failure the full success list and no
error are returned; and under the disabled codec, which fails on every item,
the success list is empty and the combined error joins exactly one failure
message per input path, in order. -/
theorem convertMultiple_error_aggregation
    (conv : String → Except String String) (paths : List String)
    (c q : Int) (kO uA : Bool) :
    ((runJobs conv paths).2 ≠ [] →
      convertMultipleCore conv paths c
        = ((runJobs conv paths).1,
           some (String.intercalate "; " (runJobs conv paths).2)))
    ∧ ((runJobs conv paths).2 = [] →
      convertMultipleCore conv paths c = ((runJobs conv paths).1, none))
    ∧ (∀ msg ∈ (runJobs conv paths).2, ∃ p ∈ paths, ∃ suffix,
        msg = "处理 " ++ (p ++ suffix))
    ∧ (paths ≠ [] →
      ConvertMultipleImagesToAvif (.ok paths) kO uA c q
        = ([], some (String.intercalate "; "
            (paths.map (fun p =>
              failureMessage p "AVIF支持暂时不可用，请稍后再试"))))) := by
  refine ⟨?_, ?_, runJobs_failure_mem conv paths, ?_⟩
  · intro hfail
    have hne : paths ≠ [] := by
      intro h; subst h; exact hfail rfl
    simp [convertMultipleCore, hne, hfail]
  · intro hnofail
    by_cases hne : paths = []
    · subst hne; simp [convertMultipleCore, runJobs]
    · simp [convertMultipleCore, hne, hnofail]
  · intro hne
    show convertMultipleCore (avifConv uA q) paths c = _
    have hall := runJobs_allFail uA q paths
    have hfail : (runJobs (avifConv uA q) paths).2 ≠ [] := by
      rw [hall]; simpa using hne
    simp [convertMultipleCore, hne, hfail, hall]

/-- C3 witness: a concrete one-item batch under the disabled codec. -/
theorem convertMultiple_error_aggregation_witness :
    ConvertMultipleImagesToAvif (.ok ["a.jpg"]) true true 4 80
      = ([], some "处理 a.jpg 失败: AVIF支持暂时不可用，请稍后再试") := by
  have h := (convertMultiple_error_aggregation (avifConv true 80) ["a.jpg"]
    4 80 true true).2.2.2 (by decide)
  rw [h]; rfl

/-- C7: the serialized-list entry point fails fast on a malformed payload —
for every converter it returns no successes and the wrapped deserialization
error before any conversion is attempted; an empty decoded list
short-circuits to an empty success set and no error for every converter; a
non-empty decoded list is delegated unchanged to the worker-pool core. -/
theorem serialized_entry_fast_paths
    (conv conv' : String → Except String String) (e : String)
    (paths : List String) (kO uA : Bool) (c q : Int) :
    convertSerializedCore conv (.error e) c = ([], some ("解析JSON失败: " ++ e))
    ∧ convertSerializedCore conv (.error e) c = convertSerializedCore conv' (.error e) c
    ∧ convertSerializedCore conv (.ok []) c = ([], none)
    ∧ convertSerializedCore conv (.ok []) c = convertSerializedCore conv' (.ok []) c
    ∧ convertSerializedCore conv (.ok paths) c = convertMultipleCore conv paths c
    ∧ ConvertMultipleImagesToAvif (.error e) kO uA c q
        = ([], some ("解析JSON失败: " ++ e))
    ∧ ConvertMultipleImagesToAvif (.ok []) kO uA c q = ([], none) := by
  refine ⟨rfl, rfl, ?_, rfl, rfl, rfl, ?_⟩ <;>
    simp [convertSerializedCore, convertMultipleCore, ConvertMultipleImagesToAvif]

/-- C8: `SetImageFormat` returns `true` and stores the argument exactly when
it is `"webp"` or `"avif"`; for any other argument it returns `false` and
leaves the stored preference unchanged. -/
theorem setImageFormat_validation (format current : String) :
    ((SetImageFormat format current).1 = true ↔ format = "webp" ∨ format = "avif")
    ∧ ((SetImageFormat format current).1 = true
        → (SetImageFormat format current).2 = format)
    ∧ ((SetImageFormat format current).1 = false
        → (SetImageFormat format current).2 = current) := by
  by_cases h1 : format = "webp"
  · simp [SetImageFormat, h1]
  · by_cases h2 : format = "avif"
    · simp [SetImageFormat, h1, h2]
    · simp [SetImageFormat, h1, h2]

/-- C8 witness: a rejected format leaves the stored preference unchanged and
an accepted one replaces it. -/
theorem setImageFormat_validation_witness :
    (SetImageFormat "gif" "webp").2 = "webp"
    ∧ (SetImageFormat "avif" "webp").2 = "avif" :=
  ⟨(setImageFormat_validation "gif" "webp").2.2 (by decide),
   (setImageFormat_validation "avif" "webp").2.1
     ((setImageFormat_validation "avif" "webp").1.mpr (Or.inr rfl))⟩

theorem syncListDir_foldl (conv : String → Except String String) (dirPath : String) :
    ∀ (files : List DirEntry) (n : Nat),
      files.foldl
        (fun count f =>
          if f.isDir then count
          else count + (if syncFileCounts conv (joinPath dirPath f.name) then 1 else 0))
        n
      = n + (files.filter
          (fun f => !f.isDir && syncFileCounts conv (joinPath dirPath f.name))).length := by
  intro files
  induction files with
  | nil => intro n; simp
  | cons f rest ih =>
    intro n
    by_cases hd : f.isDir
    · simp [List.foldl_cons, List.filter_cons, hd, ih]
    · by_cases hc : syncFileCounts conv (joinPath dirPath f.name)
      · simp [List.foldl_cons, List.filter_cons, hd, hc, ih]; omega
      · simp [List.foldl_cons, List.filter_cons, hd, hc, ih]

/-- C2 counterexample: over a directory listing with exactly two files of
supported extensions and one unsupported file, the synchronous directory
conversion of the repository — whose single-item converter fails on every
file — returns `(0, none)`, not `(2, none)`: the counter is incremented only
after a successful conversion, so the count reflects successes, not attempts. -/
theorem syncDir_attempted_count_refuted :
    ProcessDirectoryToAvifSync "dir" false true true 80 []
      (.ok [⟨"a.jpg", false⟩, ⟨"b.png", false⟩, ⟨"c.txt", false⟩]) = (0, none)
    ∧ ProcessDirectoryToAvifSync "dir" false true true 80 []
      (.ok [⟨"a.jpg", false⟩, ⟨"b.png", false⟩, ⟨"c.txt", false⟩]) ≠ (2, none) := by
  constructor
  · rfl
  · decide

/-- C2 amended: the synchronous directory conversion over a successfully read
listing returns no error — per-item failures are logged and swallowed — and a
count equal to the number of non-directory entries whose extension is
supported AND on which the single-item converter succeeds. In particular, over
a listing with two eligible and one ineligible file it returns `(2, none)`
when the converter succeeds on every file, and the repository's
always-failing converter yields count 0. -/
theorem syncDir_success_count (conv : String → Except String String)
    (dirPath : String) (files : List DirEntry) :
    (processDirSyncCore conv dirPath false [] (.ok files)).2 = none
    ∧ (processDirSyncCore conv dirPath false [] (.ok files)).1
        = (files.filter
            (fun f => !f.isDir && syncFileCounts conv (joinPath dirPath f.name))).length
    ∧ processDirSyncCore (fun p => .ok p) "dir" false []
        (.ok [⟨"a.jpg", false⟩, ⟨"b.png", false⟩, ⟨"c.txt", false⟩]) = (2, none) := by
  refine ⟨rfl, ?_, by decide⟩
  show syncListDir conv dirPath files = _
  rw [syncListDir, syncListDir_foldl]
  omega

theorem walkSync_entries_then_fail (conv : String → Except String String)
    (p msg : String) (rest : List WalkEvent) :
    ∀ (pre : List WalkEvent) (count : Nat),
      (∀ ev ∈ pre, isEntryEvent ev = true) →
      walkSync conv (pre ++ WalkEvent.fail p msg :: rest) count
        = ((walkSync conv pre count).1, some msg) := by
  intro pre
  induction pre with
  | nil => intro count _; simp [walkSync]
  | cons ev pre ih =>
    intro count hpre
    cases ev with
    | entry path isDir =>
      by_cases hd : isDir = true <;>
        simp [walkSync, hd, ih _ (fun e he => hpre e (List.mem_cons_of_mem _ he))]
    | fail _ _ =>
      have := hpre _ (List.mem_cons_self _ _)
      simp [isEntryEvent] at this

theorem collectWalk_entries_then_fail (p msg : String) (rest : List WalkEvent) :
    ∀ (pre : List WalkEvent) (acc : List String),
      (∀ ev ∈ pre, isEntryEvent ev = true) →
      collectWalk (pre ++ WalkEvent.fail p msg :: rest) acc = .error msg := by
  intro pre
  induction pre with
  | nil => intro acc _; simp [collectWalk]
  | cons ev pre ih =>
    intro acc hpre
    cases ev with
    | entry path isDir =>
      have hrest := fun e he => hpre e (List.mem_cons_of_mem _ he)
      by_cases hd : isDir = true
      · simp [collectWalk, hd, ih _ hrest]
      · by_cases hs : isSupportedImage path = true <;>
          simp [collectWalk, hd, hs, ih _ hrest]
    | fail _ _ =>
      have := hpre _ (List.mem_cons_self _ _)
      simp [isEntryEvent] at this

/-- C9: when a recursive directory walk fails partway through — after a
prefix of error-free visits — the synchronous variant returns the count of
files successfully converted over that prefix together with the walk error;
in non-recursive mode a failed root-directory read returns count 0 with the
error; and the concurrent variant returns count 0 on any enumeration error,
in both recursive and non-recursive mode. All of it holds for every
single-item converter and in particular for the repository's entry points. -/
theorem dirWalk_enumeration_failure (conv : String → Except String String)
    (pre rest : List WalkEvent) (p msg e dirPath : String)
    (events : List WalkEvent) (listing : Except String (List DirEntry))
    (kO uA : Bool) (c q : Int)
    (hpre : ∀ ev ∈ pre, isEntryEvent ev = true) :
    processDirSyncCore conv dirPath true (pre ++ WalkEvent.fail p msg :: rest) listing
      = ((walkSync conv pre 0).1, some msg)
    ∧ processDirSyncCore conv dirPath false events (.error e) = (0, some e)
    ∧ batchProcessCore conv dirPath true c (pre ++ WalkEvent.fail p msg :: rest) listing
      = (0, some msg)
    ∧ batchProcessCore conv dirPath false c events (.error e) = (0, some e)
    ∧ ProcessDirectoryToAvifSync dirPath true kO uA q
        (pre ++ WalkEvent.fail p msg :: rest) listing
      = ((walkSync (avifConv uA q) pre 0).1, some msg)
    ∧ BatchProcessImagesToAvif dirPath false kO uA c q events (.error e)
      = (0, some e) := by
  refine ⟨?_, rfl, ?_, rfl, ?_, rfl⟩
  · show walkSync conv _ 0 = _
    exact walkSync_entries_then_fail conv p msg rest pre 0 hpre
  · show batchProcessCore conv dirPath true c _ listing = _
    simp [batchProcessCore, collectWalk_entries_then_fail p msg rest pre [] hpre]
  · show processDirSyncCore (avifConv uA q) dirPath true _ listing = _
    show walkSync (avifConv uA q) _ 0 = _
    exact walkSync_entries_then_fail (avifConv uA q) p msg rest pre 0 hpre

/-- C9 witness: a concrete walk that visits one eligible file and then fails. -/
theorem dirWalk_enumeration_failure_witness :
    ProcessDirectoryToAvifSync "d" true true true 80
      ([WalkEvent.entry "d/a.jpg" false] ++ WalkEvent.fail "d/sub" "permission denied" :: [])
      (.ok [])
      = ((walkSync (avifConv true 80) [WalkEvent.entry "d/a.jpg" false] 0).1,
         some "permission denied")
    ∧ BatchProcessImagesToAvif "d" false true true 4 80 [] (.error "read failed")
      = (0, some "read failed") := by
  have h := dirWalk_enumeration_failure (avifConv true 80)
    [WalkEvent.entry "d/a.jpg" false] [] "d/sub" "permission denied" "read failed" "d"
    [] (.ok []) true true 4 80 (by decide)
  exact ⟨h.2.2.2.2.1, h.2.2.2.2.2⟩

theorem extTakeRev_shape (l : List Char) :
    extTakeRev l = [] ∨ ∃ pre, extTakeRev l = pre ++ ['.'] := by
  induction l with
  | nil => left; rfl
  | cons c rest ih =>
    by_cases h1 : c = '/'
    · left; simp [extTakeRev, h1]
    · by_cases h2 : c = '.'
      · right; exact ⟨[], by simp [extTakeRev, h1, h2]⟩
      · rcases ih with he | ⟨pre, hpre⟩
        · left; simp [extTakeRev, h1, h2, he]
        · right
          refine ⟨c :: pre, ?_⟩
          have hstep : extTakeRev (c :: rest) = c :: extTakeRev rest := by
            cases pre with
            | nil => simp [extTakeRev, h1, h2, hpre]
            | cons a pre' => simp [extTakeRev, h1, h2, hpre]
          rw [hstep, hpre]; rfl

theorem filepathExt_shape (p : String) :
    filepathExt p = "" ∨ ∃ cs, (filepathExt p).data = '.' :: cs := by
  rcases extTakeRev_shape p.data.reverse with h | ⟨pre, h⟩
  · left; rw [filepathExt, h]; rfl
  · right; exact ⟨pre.reverse, by rw [filepathExt, h]; simp⟩

theorem getImageType_of_empty (p : String) (h : filepathExt p = "") :
    getImageType p = "" := by
  simp [getImageType, strToLower, h]

theorem getImageType_of_dot (p : String) (cs : List Char)
    (h : (filepathExt p).data = '.' :: cs) :
    getImageType p = ⟨cs.map Char.toLower⟩ := by
  have hd : Char.toLower '.' = '.' := by decide
  simp [getImageType, strToLower, h, hd]

theorem isSupportedImage_expand (p : String) :
    isSupportedImage p
      = (strToLower (filepathExt p) = ".jpg"
         || strToLower (filepathExt p) = ".jpeg"
         || strToLower (filepathExt p) = ".png"
         || strToLower (filepathExt p) = ".webp") := rfl

/-- C6: a path is classified as a supported source image exactly when its
bare type — the lower-cased extension with the leading dot removed, as
computed by `getImageType` — is one of `jpg`, `jpeg`, `png`, `webp`;
`getImageType` returns the lower-cased remainder of any dot-led extension and
the empty string when the path has no extension (e.g. `"a.PNG"` yields
`"png"`). -/
theorem pathClassifier_correct (p s : String) :
    (isSupportedImage p = true ↔
      getImageType p ∈ (["jpg", "jpeg", "png", "webp"] : List String))
    ∧ (filepathExt p = "" → getImageType p = "")
    ∧ (filepathExt p = "." ++ s → getImageType p = strToLower s)
    ∧ getImageType "a.PNG" = "png" := by
  refine ⟨?_, getImageType_of_empty p, ?_, by decide⟩
  · rcases filepathExt_shape p with h | ⟨cs, h⟩
    · rw [getImageType_of_empty p h, isSupportedImage_expand, h]
      decide
    · rw [getImageType_of_dot p cs h, isSupportedImage_expand]
      have hd : Char.toLower '.' = '.' := by decide
      have hlow : strToLower (filepathExt p) = ⟨'.' :: cs.map Char.toLower⟩ := by
        simp [strToLower, h, hd]
      rw [hlow]
      generalize cs.map Char.toLower = ls
      rw [show (".jpg" : String) = ⟨['.', 'j', 'p', 'g']⟩ from rfl,
          show (".jpeg" : String) = ⟨['.', 'j', 'p', 'e', 'g']⟩ from rfl,
          show (".png" : String) = ⟨['.', 'p', 'n', 'g']⟩ from rfl,
          show (".webp" : String) = ⟨['.', 'w', 'e', 'b', 'p']⟩ from rfl,
          show ("jpg" : String) = ⟨['j', 'p', 'g']⟩ from rfl,
          show ("jpeg" : String) = ⟨['j', 'p', 'e', 'g']⟩ from rfl,
          show ("png" : String) = ⟨['p', 'n', 'g']⟩ from rfl,
          show ("webp" : String) = ⟨['w', 'e', 'b', 'p']⟩ from rfl]
      simp only [String.ext_iff, Bool.or_eq_true, decide_eq_true_eq,
        List.mem_cons, List.mem_singleton, List.not_mem_nil, or_false,
        List.cons.injEq, true_and]
      tauto
  · intro h
    have hdata : (filepathExt p).data = '.' :: s.data := by
      rw [h, String.data_append]; rfl
    rw [getImageType_of_dot p s.data hdata]
    rfl

/-- C6 witness: concrete classifications from the spec's examples. -/
theorem pathClassifier_correct_witness :
    getImageType "a.PNG" = strToLower "PNG"
    ∧ getImageType "noext" = "" :=
  ⟨(pathClassifier_correct "a.PNG" "PNG").2.2.1 (by decide),
   (pathClassifier_correct "noext" "").2.1 (by decide)⟩

/-- C10: a hidden file whose entire name is a leading dot followed by a
supported extension token (such as `.png`) has that whole name as its
extension, is classified as a supported source image — standalone or under a
directory — yields the bare token from `getImageType`, and is admitted as a
conversion candidate by the directory enumerators: the collecting walk keeps
it and the synchronous walker attempts (and with a succeeding converter,
counts) it. -/
theorem hiddenFile_classified (tok : String)
    (htok : tok ∈ (["jpg", "jpeg", "png", "webp"] : List String)) :
    filepathExt ("." ++ tok) = "." ++ tok
    ∧ isSupportedImage ("." ++ tok) = true
    ∧ getImageType ("." ++ tok) = tok
    ∧ isSupportedImage ("dir/." ++ tok) = true
    ∧ collectWalk [WalkEvent.entry ("." ++ tok) false] [] = .ok ["." ++ tok]
    ∧ syncFileCounts (fun out => .ok out) ("." ++ tok) = true := by
  simp only [List.mem_cons, List.mem_singleton, List.not_mem_nil, or_false] at htok
  rcases htok with h | h | h | h <;> subst h <;>
    exact ⟨by rfl, by rfl, by rfl, by rfl, by rfl, by rfl⟩

/-- C10 witness: the hidden file `.png` itself. -/
theorem hiddenFile_classified_witness :
    isSupportedImage ("." ++ "png") = true ∧ getImageType ("." ++ "png") = "png" :=
  ⟨(hiddenFile_classified "png" (by decide)).2.1,
   (hiddenFile_classified "png" (by decide)).2.2.1⟩

theorem scale_clamp_eq_min (wr hr : ℚ) :
    (if (if hr < wr then hr else wr) > 1 then (1 : ℚ)
     else (if hr < wr then hr else wr))
      = min (min wr hr) 1 := by
  have hmin : (if hr < wr then hr else wr) = min wr hr := by
    rcases lt_or_le hr wr with h | h
    · rw [if_pos h, min_eq_right h.le]
    · rw [if_neg (not_lt.2 h), min_eq_left h]
  rw [hmin]
  rcases le_or_lt (min wr hr) 1 with h | h
  · rw [if_neg (not_lt.2 h), min_eq_left h]
  · rw [if_pos h, min_eq_right h.le]

/-- C5: `calculateTargetSize` computes exactly the algorithm the spec
describes — substitute orientation-dependent default bounds (landscape
1280×720, otherwise 600×900) when a bound is non-positive, take the smaller
of the two axis ratios, clamp it to at most 1, and floor
`original * scaleFactor` on each axis. -/
theorem calculateTargetSize_algorithm (ow oh mw mh : Int) :
    calculateTargetSize ow oh mw mh = sizeCalculatorSpec ow oh mw mh := by
  simp only [calculateTargetSize, sizeCalculatorSpec]
  rw [scale_clamp_eq_min]

/-- C4: for positive original dimensions and positive requested bounds, the
target dimensions never exceed the requested bounds on either axis and never
exceed the original dimensions (no upscaling). -/
theorem calculateTargetSize_bounds (ow oh mw mh : Int)
    (how : 0 < ow) (hoh : 0 < oh) (hmw : 0 < mw) (hmh : 0 < mh) :
    (calculateTargetSize ow oh mw mh).1 ≤ mw
    ∧ (calculateTargetSize ow oh mw mh).2 ≤ mh
    ∧ (calculateTargetSize ow oh mw mh).1 ≤ ow
    ∧ (calculateTargetSize ow oh mw mh).2 ≤ oh := by
  simp only [calculateTargetSize]
  rw [scale_clamp_eq_min]
  rw [if_neg (by omega : ¬(mw ≤ 0 ∨ mh ≤ 0))]
  have howq : (0 : ℚ) < (ow : ℚ) := by exact_mod_cast how
  have hohq : (0 : ℚ) < (oh : ℚ) := by exact_mod_cast hoh
  set wr : ℚ := ((mw, mh).1 : ℚ) / (ow : ℚ) with hwr
  set hr : ℚ := ((mw, mh).2 : ℚ) / (oh : ℚ) with hhr
  set sc : ℚ := min (min wr hr) 1 with hsc
  have hsc_wr : sc ≤ wr := le_trans (min_le_left _ _) (min_le_left _ _)
  have hsc_hr : sc ≤ hr := le_trans (min_le_left _ _) (min_le_right _ _)
  have hsc_1 : sc ≤ 1 := min_le_right _ _
  have h1 : (ow : ℚ) * sc ≤ (mw : ℚ) := by
    calc (ow : ℚ) * sc ≤ (ow : ℚ) * wr :=
          mul_le_mul_of_nonneg_left hsc_wr howq.le
      _ = (mw : ℚ) := by
          rw [hwr, mul_comm, div_mul_cancel₀ _ (ne_of_gt howq)]
  have h2 : (oh : ℚ) * sc ≤ (mh : ℚ) := by
    calc (oh : ℚ) * sc ≤ (oh : ℚ) * hr :=
          mul_le_mul_of_nonneg_left hsc_hr hohq.le
      _ = (mh : ℚ) := by
          rw [hhr, mul_comm, div_mul_cancel₀ _ (ne_of_gt hohq)]
  have h3 : (ow : ℚ) * sc ≤ (ow : ℚ) := by
    calc (ow : ℚ) * sc ≤ (ow : ℚ) * 1 :=
          mul_le_mul_of_nonneg_left hsc_1 howq.le
      _ = (ow : ℚ) := mul_one _
  have h4 : (oh : ℚ) * sc ≤ (oh : ℚ) := by
    calc (oh : ℚ) * sc ≤ (oh : ℚ) * 1 :=
          mul_le_mul_of_nonneg_left hsc_1 hohq.le
      _ = (oh : ℚ) := mul_one _
  refine ⟨?_, ?_, ?_, ?_⟩
  · exact le_trans (Int.floor_mono h1) (le_of_eq (Int.floor_intCast mw))
  · exact le_trans (Int.floor_mono h2) (le_of_eq (Int.floor_intCast mh))
  · exact le_trans (Int.floor_mono h3) (le_of_eq (Int.floor_intCast ow))
  · exact le_trans (Int.floor_mono h4) (le_of_eq (Int.floor_intCast oh))

/-- C4 witness: a 1920×1080 original under 1280×720 bounds. -/
theorem calculateTargetSize_bounds_witness :
    (0 : Int) < 1920 ∧ (0 : Int) < 1080 ∧ (0 : Int) < 1280 ∧ (0 : Int) < 720
    ∧ ((calculateTargetSize 1920 1080 1280 720).1 ≤ 1280
       ∧ (calculateTargetSize 1920 1080 1280 720).2 ≤ 720
       ∧ (calculateTargetSize 1920 1080 1280 720).1 ≤ 1920
       ∧ (calculateTargetSize 1920 1080 1280 720).2 ≤ 1080) :=
  ⟨by decide, by decide, by decide, by decide,
   calculateTargetSize_bounds 1920 1080 1280 720
     (by decide) (by decide) (by decide) (by decide)⟩

end GoBackend
